import Mathlib

/-!
A shallow embedding of the core logic of `tableau_hyper_union.py`
(schema inventory fold, conflict detection, UNION ALL query synthesis,
pass-2 execution order, preserve-mode temp-file handling), together with
theorems about that logic.

Conventions: Python dicts keyed by schema/table names become association
lists that preserve insertion order (Python dicts preserve insertion
order); Python strings become `String`; the Hyper engine is modelled at
its interface (a catalog per file, an execution oracle per statement).
-/

namespace HyperUnion

/-- A column definition as read from a catalog: the fields the script
consults (`column.name`, `column.type`, `column.nullability`,
`column.collation`).  Types, nullability and collation are compared for
equality only, so they are modelled as plain tags. -/
structure ColumnDef where
  name : String
  type : String
  nullability : Bool
  collation : Option String
deriving DecidableEq, Repr

/-- A catalog of one file: schema name to table name to ordered column
list, in catalog enumeration order. -/
abbrev Catalog := List (String × List (String × List ColumnDef))

/-- The unified structure `output_dict` of the script (line 58): a dict
of dicts going schema > table > column list, modelled as an
insertion-ordered association list. -/
abbrev Inventory := List (String × List (String × List ColumnDef))

/-- The data of the warning logged at line 103 when a same-named column
has a different type, nullability or collation: schema, table, column
name, the first-seen definition, the incoming definition, and the file
it came from. -/
structure Conflict where
  schema : String
  table : String
  column : String
  existing : ColumnDef
  incoming : ColumnDef
  fromFile : String
deriving DecidableEq, Repr

/-- Association list lookup (Python dict access by key). -/
def alGet {β : Type} (l : List (String × β)) (k : String) : Option β :=
  (l.find? (fun p => p.1 == k)).map (fun p => p.2)

/-- Python `if k not in d: d[k] = default` — a new key is appended at the
end (dict insertion order). -/
def ensureKey {β : Type} (l : List (String × β)) (k : String) (d : β) : List (String × β) :=
  if l.any (fun p => p.1 == k) then l else l ++ [(k, d)]

/-- In-place update of the value at key `k` (Python `d[k] = f(d[k])`),
also collecting the conflicts that the update function reports. -/
def modifyKey {β : Type} (l : List (String × β)) (k : String)
    (f : β → β × List Conflict) : List (String × β) × List Conflict :=
  match l with
  | [] => ([], [])
  | p :: rest =>
    if p.1 == k then
      ((p.1, (f p.2).1) :: rest, (f p.2).2)
    else
      (p :: (modifyKey rest k f).1, (modifyKey rest k f).2)

/-- The comparison at line 101: the incoming column conflicts with the
recorded one when the type, the nullability or the collation differ. -/
def colConflict (d c : ColumnDef) : Bool :=
  c.type != d.type || c.nullability != d.nullability || c.collation != d.collation

/-- One iteration of the column loop (lines 93-105): append an unseen
column; for a seen name, record a conflict when the definitions differ
and otherwise do nothing.  The recorded definition is never replaced. -/
def mergeColsStep (s t file : String) (acc : List ColumnDef × List Conflict)
    (c : ColumnDef) : List ColumnDef × List Conflict :=
  if (acc.1.map ColumnDef.name).contains c.name then
    match acc.1.find? (fun d => d.name == c.name) with
    | some d =>
      if colConflict d c then (acc.1, acc.2 ++ [⟨s, t, c.name, d, c, file⟩]) else acc
    | none => acc
  else (acc.1 ++ [c], acc.2)

/-- The column loop of pass 1 over one incoming table definition. -/
def mergeCols (s t file : String) (cur : List ColumnDef) (incoming : List ColumnDef) :
    List ColumnDef × List Conflict :=
  incoming.foldl (mergeColsStep s t file) (cur, [])

/-- Lines 86-105 for one table of one file: ensure the table key exists
under the schema, then merge its columns. -/
def mergeTableCols (inv : Inventory) (s t : String) (cols : List ColumnDef)
    (file : String) : Inventory × List Conflict :=
  modifyKey inv s (fun tabs =>
    modifyKey (ensureKey tabs t []) t (fun cur => mergeCols s t file cur cols))

/-- Lines 77-105 for one schema of one file: ensure the schema key
exists, then fold the tables of the schema. -/
def mergeSchemaTables (inv : Inventory) (s : String)
    (tabs : List (String × List ColumnDef)) (file : String) : Inventory × List Conflict :=
  tabs.foldl
    (fun acc p =>
      ((mergeTableCols acc.1 s p.1 p.2 file).1,
        acc.2 ++ (mergeTableCols acc.1 s p.1 p.2 file).2))
    (ensureKey inv s [], [])

/-- Pass 1 for one file: fold over every schema of the catalog of that
file. -/
def mergeFile (inv : Inventory) (c : Catalog) (file : String) : Inventory × List Conflict :=
  c.foldl
    (fun acc p =>
      ((mergeSchemaTables acc.1 p.1 p.2 file).1,
        acc.2 ++ (mergeSchemaTables acc.1 p.1 p.2 file).2))
    (inv, [])

/-- Pass 1 (lines 71-105): fold the catalog of every worklist file, in
order, into the unified inventory, collecting conflict warnings. -/
def buildInventory (worklist : List String) (cat : String → Catalog) :
    Inventory × List Conflict :=
  worklist.foldl
    (fun acc f =>
      ((mergeFile acc.1 (cat f) f).1, acc.2 ++ (mergeFile acc.1 (cat f) f).2))
    ([], [])

/-- The recorded definition of column `n` of table `t` of schema `s` in
the inventory (the first column of that name in the recorded order). -/
def lookupCol (inv : Inventory) (s t n : String) : Option ColumnDef :=
  ((alGet inv s).bind (fun tabs => alGet tabs t)).bind
    (fun cols => cols.find? (fun d => d.name == n))

/-- The single-quote character, as a string (SQL string literals in the
synthesized query are wrapped in these). -/
def sq : String := String.singleton (Char.ofNat 39)

/-- Python `s[:-n]`: drop the last `n` characters. -/
def pySliceDropLast (s : String) (n : Nat) : String :=
  ⟨s.data.take (s.data.length - n)⟩

/-- Python `s.endswith(t)`. -/
def pyEndsWith (s t : String) : Bool :=
  t.data.isSuffixOf s.data

/-- Python `str.split` on a one-character separator, on the character
list: splits at every occurrence, keeping empty pieces, and returns
`[[]]` for the empty string. -/
def splitOnChar (c : Char) : List Char → List (List Char)
  | [] => [[]]
  | x :: xs =>
    if x = c then [] :: splitOnChar c xs
    else
      match splitOnChar c xs with
      | [] => [[x]]
      | y :: ys => (x :: y) :: ys

/-- Python `s.split(".")`. -/
def pySplitDot (s : String) : List String :=
  (splitOnChar '.' s.data).map (fun l => ⟨l⟩)

/-- Python `s.split(".")[-1]`. -/
def lastDotComponent (s : String) : String :=
  (pySplitDot s).getLastD ""

/-- Line 53: the temporary output file name used in preserve mode,
`args.output_file.split(".")[-1] + "_temp.hyper"`. -/
def tempOutputName (argsOut : String) : String :=
  lastDotComponent argsOut ++ "_temp.hyper"

/-- Lines 49-56: the worklist and the effective output file.  Without
preserve mode the worklist is every globbed `.hyper` file except the
output file; with preserve mode the output is written to the temp name
and the worklist is every globbed file except that temp name. -/
def worklistOf (preserve : Bool) (globbed : List String) (argsOut : String) :
    List String × String :=
  if preserve then
    (globbed.filter (fun f => f != tempOutputName argsOut), tempOutputName argsOut)
  else
    (globbed.filter (fun f => f != argsOut), argsOut)

/-- Double every double-quote character. -/
def escapeQuotes : List Char → List Char
  | [] => []
  | c :: cs => if c = '"' then '"' :: '"' :: escapeQuotes cs else c :: escapeQuotes cs

/-- Model of `tableauhyperapi.escape_name`: wrap the identifier in double
quotes, doubling any double quote inside it. -/
def escape_name (s : String) : String :=
  ⟨'"' :: (escapeQuotes s.data ++ ['"'])⟩

/-- Double every single-quote character. -/
def escapeSingles : List Char → List Char
  | [] => []
  | c :: cs =>
    if c = Char.ofNat 39 then Char.ofNat 39 :: Char.ofNat 39 :: escapeSingles cs
    else c :: escapeSingles cs

/-- Model of `tableauhyperapi.escape_string_literal`: wrap in single
quotes, doubling any single quote inside.  The script never calls this;
it is stated here because the specification demands string-literal
escaping for the provenance file-name literal. -/
def escape_string_literal (s : String) : String :=
  ⟨Char.ofNat 39 :: (escapeSingles s.data ++ [Char.ofNat 39])⟩

/-- Line 140: `file.split(".")[:-1][0]`, the database alias Hyper derives
from a file name (the part before the first dot for globbed `*.hyper`
names). -/
def fileDatabaseName (file : String) : String :=
  ((pySplitDot file).dropLast).headD ""

/-- The tables of one schema in a catalog (`get_table_names`), empty when
the schema is absent. -/
def tablesOfSchema (c : Catalog) (s : String) : List (String × List ColumnDef) :=
  (alGet c s).getD []

/-- The table names of one schema in a catalog. -/
def tableNamesOfSchema (c : Catalog) (s : String) : List String :=
  (tablesOfSchema c s).map (fun p => p.1)

/-- Line 144: whether a file contains a table matching the schema name
and table name of the unified table. -/
def isCandidate (c : Catalog) (s t : String) : Bool :=
  (tableNamesOfSchema c s).contains t

/-- Line 152: the column names of the copy of the table inside one file
(`get_table_definition(...).columns`). -/
def fileTableColumnNames (c : Catalog) (s t : String) : List String :=
  ((alGet (tablesOfSchema c s) t).getD []).map ColumnDef.name

/-- Lines 151-157, one unified column of one SELECT branch: select the
column verbatim when the file has it and its escaped name is not the
escaped provenance name; otherwise select `NULL` aliased to it, again
only when not the provenance name; a column whose escaped name equals
the escaped provenance name contributes nothing. -/
def colFrag (fileCols : List String) (prov : String) (c : ColumnDef) : String :=
  if fileCols.contains c.name && (escape_name c.name != escape_name prov) then
    " " ++ escape_name c.name ++ ","
  else if escape_name c.name != escape_name prov then
    " NULL as " ++ escape_name c.name ++ ","
  else
    ""

/-- Lines 158-162: the provenance fragment.  When the provenance column
name is non-empty, a genuine source file contributes the file name as a
single-quoted literal aliased (unescaped) to the provenance name, while
the previous output file (`file == args.output_file`, preserve mode)
contributes its own provenance column, escaped, under the same alias. -/
def provFrag (prov argsOut file : String) : String :=
  if 0 < prov.length then
    if file != argsOut then
      " " ++ sq ++ file ++ sq ++ " as " ++ prov ++ ","
    else
      " " ++ escape_name prov ++ " as " ++ prov ++ ","
  else ""

/-- The `union_query += ...` accumulation of the column loop, starting
from the literal `SELECT` of line 150. -/
def selectAccum (fileCols : List String) (prov : String) (cols : List ColumnDef) : String :=
  cols.foldl (fun q c => q ++ colFrag fileCols prov c) "SELECT"

/-- Lines 149-165: the full text one candidate file appends to the
query: the SELECT list with its trailing comma pinched off (line 164,
`union_query[:-1]`), the FROM clause over the escaped database alias,
schema and table, and a trailing `UNION ALL` separator. -/
def branchText (fileCols : List String) (prov argsOut file s t : String)
    (cols : List ColumnDef) : String :=
  pySliceDropLast (selectAccum fileCols prov cols ++ provFrag prov argsOut file) 1
    ++ " FROM " ++ escape_name (fileDatabaseName file) ++ "." ++ escape_name s ++ "."
    ++ escape_name t ++ "\nUNION ALL\n"

/-- Line 136: the CREATE TABLE header of the statement for one unified
table. -/
def queryHeader (s t : String) : String :=
  "CREATE TABLE \"union_output\"." ++ escape_name s ++ "." ++ escape_name t ++ " AS\n"

/-- Lines 176-177: remove the last `UNION ALL` separator, if there is
one (`union_query[:-10]`). -/
def pinchUnionAll (q : String) : String :=
  if pyEndsWith q "UNION ALL\n" then pySliceDropLast q 10 else q

/-- Lines 136-177: the statement synthesized for one unified table:
header, then one branch per worklist file whose catalog contains the
table, then the trailing separator pinched off. -/
def unionQuery (cat : String → Catalog) (worklist : List String)
    (prov argsOut s t : String) (cols : List ColumnDef) : String :=
  pinchUnionAll (worklist.foldl
    (fun q file =>
      if isCandidate (cat file) s t then
        q ++ branchText (fileTableColumnNames (cat file) s t) prov argsOut file s t cols
      else q)
    (queryHeader s t))

/-- Lines 128-182: the statements of pass 2, one per unified table, in
inventory order (schemas outer, tables inner). -/
def allQueries (cat : String → Catalog) (worklist : List String) (prov argsOut : String)
    (inv : Inventory) : List String :=
  (inv.map (fun p => p.2.map (fun q => unionQuery cat worklist prov argsOut p.1 q.1 q.2))).flatten

/-- Sequential execution of the synthesized statements against an
execution oracle.  The script runs `connection.execute_command` inside
one try block covering all of pass 2 (lines 114-191), so the first
failing statement raises out of the loop: the result is the list of
successfully executed statements and the first failing statement, if
any; nothing after the first failure is executed. -/
def runQueries (execOk : String → Bool) : List String → List String × Option String
  | [] => ([], none)
  | q :: rest =>
    if execOk q then
      (q :: (runQueries execOk rest).1, (runQueries execOk rest).2)
    else ([], some q)

/-- Pass 2 execution: run every synthesized statement in order until the
first failure. -/
def pass2 (execOk : String → Bool) (cat : String → Catalog) (worklist : List String)
    (prov argsOut : String) (inv : Inventory) : List String × Option String :=
  runQueries execOk (allQueries cat worklist prov argsOut inv)

/-- Outcome of the finalization step (lines 184-191): either it finished
(renames done, or nothing to do), or an exception was caught by the
outer handler at line 189 and logged as a problem accessing the output
file.  Both carry the resulting set of files on disk. -/
inductive FinalizeResult where
  | finished : List String → FinalizeResult
  | outputAccessErrorLogged : List String → FinalizeResult
deriving DecidableEq, Repr

/-- `os.remove`: fails (raises) when the file does not exist. -/
def osRemove (f : String) (fs : List String) : Option (List String) :=
  if f ∈ fs then some (fs.erase f) else none

/-- `os.rename`: fails when the source does not exist; replaces any file
at the destination. -/
def osRename (src dst : String) (fs : List String) : Option (List String) :=
  if src ∈ fs then some ((fs.erase src).erase dst ++ [dst]) else none

/-- Lines 184-191: when the output was written under a temporary name,
remove the original output file and rename the temporary file into its
place; an exception from either step is caught by the handler at line
189 and logged as an output-file access problem. -/
def finalize (output_file args_output : String) (fs : List String) : FinalizeResult :=
  if output_file != args_output then
    match osRemove args_output fs with
    | none => .outputAccessErrorLogged fs
    | some fs1 =>
      match osRename output_file args_output fs1 with
      | none => .outputAccessErrorLogged fs1
      | some fs2 => .finished fs2
  else .finished fs

/-- The pure part of a whole run: worklist selection, pass-1 inventory
and conflicts, and the synthesized SQL of every table, as a function of
the configuration and of the catalogs of the files. -/
def runPipeline (preserve : Bool) (globbed : List String) (argsOut prov : String)
    (cat : String → Catalog) : (Inventory × List Conflict) × List String :=
  (buildInventory (worklistOf preserve globbed argsOut).1 cat,
    allQueries cat (worklistOf preserve globbed argsOut).1 prov argsOut
      (buildInventory (worklistOf preserve globbed argsOut).1 cat).1)

/-- Comma-space joined list of expressions (used to state what the
append-then-pinch loop produces). -/
def commaJoin : List String → String
  | [] => ""
  | [e] => e
  | e :: e2 :: es => e ++ ", " ++ commaJoin (e2 :: es)

/-- The SELECT expressions of one branch in unified column order, as a
structured list: the escaped column when the file has it, a bare `NULL`
aliased to the escaped column otherwise, and nothing for a column whose
escaped name equals the escaped provenance name. -/
def selectExprs (fileCols : List String) (prov : String) (cols : List ColumnDef) :
    List String :=
  cols.filterMap (fun c =>
    if escape_name c.name == escape_name prov then none
    else if fileCols.contains c.name then some (escape_name c.name)
    else some ("NULL as " ++ escape_name c.name))

/-- The provenance expression of one branch: the single-quoted file name
for a genuine source file, the escaped provenance column for the
re-absorbed previous output; in both cases aliased to the provenance
name written verbatim. -/
def provExpr (prov argsOut file : String) : String :=
  (if file != argsOut then sq ++ file ++ sq else escape_name prov) ++ " as " ++ prov

/-- The structured form of one branch (no trailing separator). -/
def branchCoreStruct (fileCols : List String) (prov argsOut file s t : String)
    (cols : List ColumnDef) : String :=
  "SELECT " ++ commaJoin (selectExprs fileCols prov cols ++ [provExpr prov argsOut file])
    ++ " FROM " ++ escape_name (fileDatabaseName file) ++ "." ++ escape_name s ++ "."
    ++ escape_name t

/-- Branches joined by the UNION ALL separator. -/
def unionJoin : List String → String
  | [] => ""
  | [b] => b
  | b :: b2 :: bs => b ++ "\nUNION ALL\n" ++ unionJoin (b2 :: bs)

/-- The concatenation of per-element fragments, as produced by the
`union_query += ...` loops. -/
def joinFrags {α : Type} (f : α → String) : List α → String
  | [] => ""
  | c :: cs => f c ++ joinFrags f cs

/-- Catalog shared by the two tables of the claim C2 counterexample. -/
def exCatC2 : String → Catalog := fun _ =>
  [("s", [("t1", [⟨"id", "int", true, none⟩]), ("t2", [⟨"id", "int", true, none⟩])])]

/-- Inventory with two tables for the claim C2 counterexample. -/
def exInvC2 : Inventory :=
  [("s", [("t1", [⟨"id", "int", true, none⟩]), ("t2", [⟨"id", "int", true, none⟩])])]

/-- The two statements synthesized for the claim C2 counterexample. -/
def exQsC2 : List String :=
  allQueries exCatC2 ["a.hyper"] "source_file" "union.hyper" exInvC2

/-- Catalog of the claim C4 counterexample: the file has only `id`. -/
def exCatC4 : String → Catalog := fun _ => [("s", [("t", [⟨"id", "int", true, none⟩])])]

/-- Catalog for the claim C6 witness. -/
def exCatC6 : String → Catalog := fun _ => [("s", [("t", [⟨"id", "int", true, none⟩])])]

/-! Lemmas about the pass-1 inventory fold. -/

theorem alGet_nil {β : Type} (k : String) : alGet ([] : List (String × β)) k = none := rfl

theorem alGet_cons {β : Type} (p : String × β) (l : List (String × β)) (k : String) :
    alGet (p :: l) k = if p.1 == k then some p.2 else alGet l k := by
  unfold alGet
  rw [List.find?_cons]
  split <;> simp_all

theorem alGet_append {β : Type} {l : List (String × β)} {k : String} {v : β}
    (m : List (String × β)) (h : alGet l k = some v) : alGet (l ++ m) k = some v := by
  unfold alGet at h ⊢
  rcases hf : List.find? (fun p => p.1 == k) l with _ | p
  · rw [hf] at h; simp at h
  · rw [hf] at h
    rw [List.find?_append, hf, Option.or_some]
    exact h

theorem find?_stable {α : Type} {p : α → Bool} {l : List α} {d : α}
    (ex : List α) (h : l.find? p = some d) : (l ++ ex).find? p = some d := by
  rw [List.find?_append, h, Option.or_some]

theorem alGet_any {β : Type} {l : List (String × β)} {k : String} {v : β}
    (h : alGet l k = some v) : l.any (fun p => p.1 == k) = true := by
  unfold alGet at h
  rcases hf : List.find? (fun p => p.1 == k) l with _ | p
  · rw [hf] at h; simp at h
  · have hp := List.find?_some hf
    have hm := List.mem_of_find?_eq_some hf
    simp only [List.any_eq_true]
    exact ⟨p, hm, hp⟩

theorem ensureKey_of_get {β : Type} {l : List (String × β)} {k : String} {v : β}
    (d : β) (h : alGet l k = some v) : ensureKey l k d = l := by
  unfold ensureKey
  rw [alGet_any h]
  simp

theorem alGet_ensureKey {β : Type} {l : List (String × β)} {k' : String} {v : β}
    (k : String) (d : β) (h : alGet l k' = some v) : alGet (ensureKey l k d) k' = some v := by
  unfold ensureKey
  split
  · exact h
  · exact alGet_append _ h

theorem modifyKey_alGet_ne {β : Type} (l : List (String × β)) (k k' : String)
    (f : β → β × List Conflict) (hne : k' ≠ k) :
    alGet (modifyKey l k f).1 k' = alGet l k' := by
  induction l with
  | nil => rfl
  | cons p rest ih =>
    obtain ⟨k1, v1⟩ := p
    simp only [modifyKey]
    by_cases hk : (k1 == k) = true
    · rw [if_pos hk]
      have hk1 : k1 = k := by simpa using hk
      have hne2 : (k1 == k') = false := by
        simp only [beq_eq_false_iff_ne]
        rw [hk1]
        exact fun hc => hne hc.symm
      rw [alGet_cons, alGet_cons]
      simp [hne2]
    · rw [if_neg hk]
      rw [alGet_cons, alGet_cons]
      by_cases hk2 : (k1 == k') = true
      · simp [hk2]
      · simp only [Bool.not_eq_true] at hk2
        simp [hk2, ih]

theorem modifyKey_alGet_eq {β : Type} {l : List (String × β)} {k : String} {v : β}
    (f : β → β × List Conflict) (h : alGet l k = some v) :
    alGet (modifyKey l k f).1 k = some ((f v).1) := by
  induction l with
  | nil => simp [alGet_nil] at h
  | cons p rest ih =>
    obtain ⟨k1, v1⟩ := p
    rw [alGet_cons] at h
    simp only [modifyKey]
    by_cases hk : (k1 == k) = true
    · rw [if_pos hk] at h
      have hv : v1 = v := by simpa using h
      rw [if_pos hk, alGet_cons]
      subst hv
      simp [hk]
    · rw [if_neg hk] at h
      rw [if_neg hk, alGet_cons]
      simp only [Bool.not_eq_true] at hk
      simp [hk]
      exact ih h

theorem modifyKey_self {β : Type} {l : List (String × β)} {k : String} {v : β}
    (f : β → β × List Conflict) (h : alGet l k = some v) (hf : (f v).1 = v) :
    modifyKey l k f = (l, (f v).2) := by
  induction l with
  | nil => simp [alGet_nil] at h
  | cons p rest ih =>
    obtain ⟨k1, v1⟩ := p
    rw [alGet_cons] at h
    simp only [modifyKey]
    by_cases hk : (k1 == k) = true
    · rw [if_pos hk] at h
      have hv : v1 = v := by simpa using h
      rw [if_pos hk]
      subst hv
      rw [hf]
    · rw [if_neg hk] at h
      rw [if_neg hk]
      rw [ih h]

theorem foldl_preserve {α β : Type} (P : α → Prop) (step : α → β → α) (l : List β)
    (hstep : ∀ a b, P a → P (step a b)) : ∀ a, P a → P (l.foldl step a) := by
  induction l with
  | nil => exact fun a h => h
  | cons b rest ih => exact fun a h => ih _ (hstep a b h)

theorem mergeColsStep_fst (s t file : String) (acc : List ColumnDef × List Conflict)
    (c : ColumnDef) : ∃ ex, (mergeColsStep s t file acc c).1 = acc.1 ++ ex := by
  unfold mergeColsStep
  split
  · split
    · split
      · exact ⟨[], by simp⟩
      · exact ⟨[], by simp⟩
    · exact ⟨[], by simp⟩
  · exact ⟨[c], rfl⟩

theorem mergeCols_fold_fst (s t file : String) (incoming : List ColumnDef) :
    ∀ (acc : List ColumnDef × List Conflict),
      ∃ ex, (incoming.foldl (mergeColsStep s t file) acc).1 = acc.1 ++ ex := by
  induction incoming with
  | nil => exact fun acc => ⟨[], by simp⟩
  | cons c rest ih =>
    intro acc
    obtain ⟨e1, h1⟩ := mergeColsStep_fst s t file acc c
    obtain ⟨e2, h2⟩ := ih (mergeColsStep s t file acc c)
    refine ⟨e1 ++ e2, ?_⟩
    rw [List.foldl_cons, h2, h1, List.append_assoc]

theorem mergeCols_fst_append (s t file : String) (cur incoming : List ColumnDef) :
    ∃ ex, (mergeCols s t file cur incoming).1 = cur ++ ex :=
  mergeCols_fold_fst s t file incoming (cur, [])

theorem lookupCol_mergeTableCols {inv : Inventory} {s t n : String} {d : ColumnDef}
    (s' t' : String) (cols : List ColumnDef) (file : String)
    (h : lookupCol inv s t n = some d) :
    lookupCol (mergeTableCols inv s' t' cols file).1 s t n = some d := by
  unfold lookupCol at h
  rcases hs : alGet inv s with _ | tabs
  · rw [hs] at h; exact absurd h (by simp)
  · rw [hs] at h
    simp only [Option.some_bind] at h
    rcases ht : alGet tabs t with _ | cur
    · rw [ht] at h; exact absurd h (by simp)
    · rw [ht] at h
      simp only [Option.some_bind] at h
      unfold mergeTableCols lookupCol
      by_cases hss : s = s'
      · subst hss
        rw [modifyKey_alGet_eq _ hs]
        simp only [Option.some_bind]
        by_cases htt : t = t'
        · subst htt
          rw [ensureKey_of_get _ ht, modifyKey_alGet_eq _ ht]
          simp only [Option.some_bind]
          obtain ⟨ex, hex⟩ := mergeCols_fst_append s t file cur cols
          rw [hex]
          exact find?_stable ex h
        · rw [modifyKey_alGet_ne _ _ _ _ htt, alGet_ensureKey _ _ ht]
          simp only [Option.some_bind]
          exact h
      · rw [modifyKey_alGet_ne _ _ _ _ hss, hs]
        simp only [Option.some_bind]
        rw [ht]
        simp only [Option.some_bind]
        exact h

theorem lookupCol_ensure {inv : Inventory} {s t n : String} {d : ColumnDef}
    (s0 : String) (h : lookupCol inv s t n = some d) :
    lookupCol (ensureKey inv s0 []) s t n = some d := by
  unfold lookupCol at h ⊢
  rcases hs : alGet inv s with _ | tabs
  · rw [hs] at h; exact absurd h (by simp)
  · rw [hs] at h
    rw [alGet_ensureKey _ _ hs]
    exact h

theorem lookupCol_mergeSchemaTables {inv : Inventory} {s t n : String} {d : ColumnDef}
    (s0 : String) (tabs0 : List (String × List ColumnDef)) (file : String)
    (h : lookupCol inv s t n = some d) :
    lookupCol (mergeSchemaTables inv s0 tabs0 file).1 s t n = some d := by
  unfold mergeSchemaTables
  refine foldl_preserve (fun acc : Inventory × List Conflict => lookupCol acc.1 s t n = some d) _ tabs0 ?_ _ ?_
  · intro acc p hp
    exact lookupCol_mergeTableCols s0 p.1 p.2 file hp
  · exact lookupCol_ensure s0 h

theorem lookupCol_mergeFile {inv : Inventory} {s t n : String} {d : ColumnDef}
    (c : Catalog) (file : String) (h : lookupCol inv s t n = some d) :
    lookupCol (mergeFile inv c file).1 s t n = some d := by
  unfold mergeFile
  refine foldl_preserve (fun acc : Inventory × List Conflict => lookupCol acc.1 s t n = some d) _ c ?_ _ h
  intro acc p hp
  exact lookupCol_mergeSchemaTables p.1 p.2 file hp

theorem mergeCols_conflict {cur : List ColumnDef} {c d : ColumnDef} (s t fB : String)
    (hfind : cur.find? (fun e => e.name == c.name) = some d)
    (hconf : colConflict d c = true) :
    mergeCols s t fB cur [c] = (cur, [⟨s, t, c.name, d, c, fB⟩]) := by
  have hd := List.mem_of_find?_eq_some hfind
  have heq : d.name = c.name := by
    have := List.find?_some hfind
    simpa using this
  have hmem : ((cur.map ColumnDef.name).contains c.name) = true := by
    rw [List.contains_iff_exists_mem_beq]
    exact ⟨d.name, List.mem_map.mpr ⟨d, hd, rfl⟩, by simp [heq]⟩
  simp [mergeCols, mergeColsStep, hmem, hfind, hconf]
  exact ⟨d, hd, heq⟩

theorem mergeFile_conflict {inv : Inventory} {tabs : List (String × List ColumnDef)}
    {cur : List ColumnDef} {s t : String} {c d : ColumnDef} (fB : String)
    (hs : alGet inv s = some tabs) (ht : alGet tabs t = some cur)
    (hfind : cur.find? (fun e => e.name == c.name) = some d)
    (hconf : colConflict d c = true) :
    mergeFile inv [(s, [(t, [c])])] fB = (inv, [⟨s, t, c.name, d, c, fB⟩]) := by
  have hmc := mergeCols_conflict s t fB hfind hconf
  have h1 : ((fun cur0 => mergeCols s t fB cur0 [c]) cur).1 = cur := by
    show (mergeCols s t fB cur [c]).1 = cur
    rw [hmc]
  have hin := modifyKey_self (l := tabs) (k := t)
    (fun cur0 => mergeCols s t fB cur0 [c]) ht h1
  have hin2 : modifyKey tabs t (fun cur0 => mergeCols s t fB cur0 [c])
      = (tabs, [⟨s, t, c.name, d, c, fB⟩]) := by
    rw [hin]
    show (tabs, (mergeCols s t fB cur [c]).2) = _
    rw [hmc]
  have h2 : ((fun tabs0 => modifyKey (ensureKey tabs0 t []) t
      (fun cur0 => mergeCols s t fB cur0 [c])) tabs).1 = tabs := by
    show (modifyKey (ensureKey tabs t []) t (fun cur0 => mergeCols s t fB cur0 [c])).1 = tabs
    rw [ensureKey_of_get _ ht, hin2]
  have hout := modifyKey_self (l := inv) (k := s)
    (fun tabs0 => modifyKey (ensureKey tabs0 t []) t (fun cur0 => mergeCols s t fB cur0 [c]))
    hs h2
  have hmtc : mergeTableCols inv s t [c] fB = (inv, [⟨s, t, c.name, d, c, fB⟩]) := by
    unfold mergeTableCols
    rw [hout]
    show (inv, (modifyKey (ensureKey tabs t []) t (fun cur0 => mergeCols s t fB cur0 [c])).2) = _
    rw [ensureKey_of_get _ ht, hin2]
  have hmst : mergeSchemaTables inv s [(t, [c])] fB = (inv, [⟨s, t, c.name, d, c, fB⟩]) := by
    unfold mergeSchemaTables
    rw [ensureKey_of_get _ hs]
    simp only [List.foldl_cons, List.foldl_nil]
    rw [hmtc]
    rfl
  unfold mergeFile
  simp only [List.foldl_cons, List.foldl_nil]
  rw [hmst]
  rfl

/-- Claim C1.  First-seen wins.  Part one: a column definition recorded
in the inventory by pass 1 over any worklist is still the recorded
definition after pass 1 over any extension of that worklist — the first
recorded `ColumnDef` is never replaced.  Part two: merging a file whose
catalog presents, for an already-recorded schema, table and column name,
a definition whose type, nullability or collation differs, leaves the
inventory unchanged and emits exactly one conflict record naming the
schema, table, column, the existing definition, the incoming definition
and the source file; `mergeFile` is total, so no exception is raised. -/
theorem claim_C1 :
    (∀ (w w' : List String) (cat : String → Catalog) (s t n : String) (d : ColumnDef),
      lookupCol (buildInventory w cat).1 s t n = some d →
      lookupCol (buildInventory (w ++ w') cat).1 s t n = some d)
    ∧ (∀ (inv : Inventory) (tabs : List (String × List ColumnDef))
        (cur : List ColumnDef) (s t : String) (c d : ColumnDef) (fB : String),
      alGet inv s = some tabs → alGet tabs t = some cur →
      cur.find? (fun e => e.name == c.name) = some d → colConflict d c = true →
      mergeFile inv [(s, [(t, [c])])] fB = (inv, [⟨s, t, c.name, d, c, fB⟩])) := by
  constructor
  · intro w w' cat s t n d h
    unfold buildInventory at h ⊢
    rw [List.foldl_append]
    refine foldl_preserve
      (fun acc : Inventory × List Conflict => lookupCol acc.1 s t n = some d) _ w' ?_ _ h
    intro acc f hp
    exact lookupCol_mergeFile (cat f) f hp
  · intro inv tabs cur s t c d fB hs ht hfind hconf
    exact mergeFile_conflict fB hs ht hfind hconf

/-- Claim C1, witness: the spec example — file A records `x` as int and
nullable; file B presents `x` as text and not-null; the recorded
definition survives the extension of the worklist by B, and merging the
catalog of B emits the conflict record while leaving the inventory
unchanged. -/
theorem claim_C1_witness :
    lookupCol
      (buildInventory (["a.hyper"] ++ ["b.hyper"])
        (fun f =>
          if f == "a.hyper" then [("public", [("t", [⟨"x", "int", true, none⟩])])]
          else [("public", [("t", [⟨"x", "text", false, none⟩])])])).1
      "public" "t" "x" = some ⟨"x", "int", true, none⟩
    ∧ mergeFile [("public", [("t", [⟨"x", "int", true, none⟩])])]
        [("public", [("t", [⟨"x", "text", false, none⟩])])] "b.hyper"
      = ([("public", [("t", [⟨"x", "int", true, none⟩])])],
         [⟨"public", "t", "x", ⟨"x", "int", true, none⟩, ⟨"x", "text", false, none⟩,
           "b.hyper"⟩]) := by
  constructor
  · exact claim_C1.1 ["a.hyper"] ["b.hyper"] _ "public" "t" "x" ⟨"x", "int", true, none⟩
      (by decide)
  · exact claim_C1.2 [("public", [("t", [⟨"x", "int", true, none⟩])])]
      [("t", [⟨"x", "int", true, none⟩])] [⟨"x", "int", true, none⟩] "public" "t"
      ⟨"x", "text", false, none⟩ ⟨"x", "int", true, none⟩ "b.hyper"
      (by decide) (by decide) (by decide) (by decide)

/-! String-level lemmas about the query synthesis. -/

theorem sappend_assoc (s t u : String) : (s ++ t) ++ u = s ++ (t ++ u) :=
  String.ext (by simp [List.append_assoc])

theorem empty_data : ("" : String).data = [] := rfl

theorem sappend_empty (s : String) : s ++ "" = s :=
  String.ext (by simp [empty_data])

theorem empty_sappend (s : String) : "" ++ s = s :=
  String.ext (by simp [empty_data])

theorem pySliceDropLast_append (s t : String) :
    pySliceDropLast (s ++ t) t.data.length = s := by
  refine String.ext ?_
  show ((s ++ t).data.take ((s ++ t).data.length - t.data.length)) = s.data
  rw [String.data_append, List.length_append, Nat.add_sub_cancel]
  exact List.take_left s.data t.data

theorem pinch_comma (s : String) : pySliceDropLast (s ++ ",") 1 = s :=
  pySliceDropLast_append s ","

theorem pinch_unionall (s : String) : pySliceDropLast (s ++ "UNION ALL\n") 10 = s :=
  pySliceDropLast_append s "UNION ALL\n"

theorem pyEndsWith_append (x t : String) : pyEndsWith (x ++ t) t = true := by
  unfold pyEndsWith
  simp only [String.data_append, List.isSuffixOf_iff_suffix]
  exact List.suffix_append x.data t.data

theorem pyEndsWith_AS_false (x : String) :
    pyEndsWith (x ++ " AS\n") "UNION ALL\n" = false := by
  unfold pyEndsWith
  rw [Bool.eq_false_iff]
  intro hsuf
  rw [List.isSuffixOf_iff_suffix, String.data_append] at hsuf
  have h2 : (" AS\n" : String).data <:+ x.data ++ (" AS\n" : String).data :=
    List.suffix_append _ _
  rcases List.suffix_or_suffix_of_suffix hsuf h2 with h | h
  · exact absurd h (by decide)
  · exact absurd h (by decide)

theorem foldl_append_eq_joinFrags {α : Type} (f : α → String) (l : List α) :
    ∀ a : String, l.foldl (fun q c => q ++ f c) a = a ++ joinFrags f l := by
  induction l with
  | nil => intro a; simp [joinFrags, sappend_empty]
  | cons c cs ih =>
    intro a
    rw [List.foldl_cons, ih, joinFrags, ← sappend_assoc]

theorem joinFrags_append {α : Type} (f : α → String) (l m : List α) :
    joinFrags f (l ++ m) = joinFrags f l ++ joinFrags f m := by
  induction l with
  | nil => simp [joinFrags, empty_sappend]
  | cons c cs ih =>
    show f c ++ joinFrags f (cs ++ m) = (f c ++ joinFrags f cs) ++ joinFrags f m
    rw [ih, sappend_assoc]

theorem foldl_filter_eq_joinFrags (cond : String → Bool) (g : String → String)
    (l : List String) : ∀ a : String,
    l.foldl (fun q file => if cond file then q ++ g file else q) a
      = a ++ joinFrags g (l.filter cond) := by
  induction l with
  | nil => intro a; simp [joinFrags, sappend_empty]
  | cons c cs ih =>
    intro a
    rw [List.foldl_cons]
    by_cases hc : cond c = true
    · rw [if_pos hc, ih, List.filter_cons_of_pos hc, joinFrags, ← sappend_assoc]
    · rw [if_neg hc, ih, List.filter_cons_of_neg (by simpa using hc)]

theorem lit_fuse (a b c r : String) (h : a ++ b = c) : a ++ (b ++ r) = c ++ r := by
  rw [← sappend_assoc, h]

theorem lit_null (r : String) : (" NULL as " : String) ++ r = " " ++ ("NULL as " ++ r) := by
  have h : (" " : String) ++ "NULL as " = " NULL as " := by decide
  rw [← sappend_assoc, h]

theorem colFrag_skip {fileCols : List String} {prov : String} {c : ColumnDef}
    (hcol : (escape_name c.name == escape_name prov) = true) :
    colFrag fileCols prov c = "" := by
  have hb : (escape_name c.name != escape_name prov) = false := by
    simp [bne, hcol]
  unfold colFrag
  rw [if_neg (by simp [hb]), if_neg (by simp [hb])]

theorem colFrag_mem {fileCols : List String} {prov : String} {c : ColumnDef}
    (hcol : (escape_name c.name == escape_name prov) = false)
    (hmem : fileCols.contains c.name = true) :
    colFrag fileCols prov c = " " ++ escape_name c.name ++ "," := by
  have hb : (escape_name c.name != escape_name prov) = true := by
    simp [bne, hcol]
  unfold colFrag
  rw [if_pos (by rw [hmem, hb]; rfl)]

theorem colFrag_null {fileCols : List String} {prov : String} {c : ColumnDef}
    (hcol : (escape_name c.name == escape_name prov) = false)
    (hmem : fileCols.contains c.name = false) :
    colFrag fileCols prov c = " NULL as " ++ escape_name c.name ++ "," := by
  have hb : (escape_name c.name != escape_name prov) = true := by
    simp [bne, hcol]
  have hc : (fileCols.contains c.name && (escape_name c.name != escape_name prov)) = false := by
    rw [hmem]
    rfl
  unfold colFrag
  rw [if_neg (by simp only [hc]; exact Bool.false_ne_true), if_pos hb]

theorem joinFrags_colFrag (fileCols : List String) (prov : String)
    (cols : List ColumnDef) :
    joinFrags (colFrag fileCols prov) cols
      = joinFrags (fun e => " " ++ e ++ ",") (selectExprs fileCols prov cols) := by
  induction cols with
  | nil => rfl
  | cons c cs ih =>
    simp only [selectExprs] at ih ⊢
    by_cases hcol : (escape_name c.name == escape_name prov) = true
    · have hfc : (fun c : ColumnDef =>
          if (escape_name c.name == escape_name prov) = true then none
          else if fileCols.contains c.name = true then some (escape_name c.name)
          else some ("NULL as " ++ escape_name c.name)) c = none := by
        simp only [if_pos hcol]
      simp only [joinFrags, List.filterMap_cons, hfc]
      rw [colFrag_skip hcol, empty_sappend]
      exact ih
    · have hcolf : (escape_name c.name == escape_name prov) = false := by
        simpa using hcol
      by_cases hmem : fileCols.contains c.name = true
      · have hfc : (fun c : ColumnDef =>
            if (escape_name c.name == escape_name prov) = true then none
            else if fileCols.contains c.name = true then some (escape_name c.name)
            else some ("NULL as " ++ escape_name c.name)) c
            = some (escape_name c.name) := by
          simp only [if_neg hcol, if_pos hmem]
        simp only [joinFrags, List.filterMap_cons, hfc]
        rw [colFrag_mem hcolf hmem, ih]
      · have hmemf : fileCols.contains c.name = false := by simpa using hmem
        have hfc : (fun c : ColumnDef =>
            if (escape_name c.name == escape_name prov) = true then none
            else if fileCols.contains c.name = true then some (escape_name c.name)
            else some ("NULL as " ++ escape_name c.name)) c
            = some ("NULL as " ++ escape_name c.name) := by
          simp only [if_neg hcol, if_neg hmem]
        simp only [joinFrags, List.filterMap_cons, hfc]
        rw [colFrag_null hcolf hmemf, ih]
        simp only [sappend_assoc]
        exact lit_null _

theorem provFrag_eq (prov argsOut file : String) (hp : 0 < prov.length) :
    provFrag prov argsOut file = " " ++ provExpr prov argsOut file ++ "," := by
  unfold provFrag provExpr
  rw [if_pos hp]
  by_cases hf : (file != argsOut) = true
  · rw [if_pos hf, if_pos hf]
    simp [sappend_assoc]
  · rw [if_neg hf, if_neg hf]
    simp [sappend_assoc]

theorem renderSel_eq (e : String) (es : List String) :
    joinFrags (fun x => " " ++ x ++ ",") (e :: es) = " " ++ commaJoin (e :: es) ++ "," := by
  induction es generalizing e with
  | nil => simp [joinFrags, commaJoin, sappend_empty]
  | cons e2 es ih =>
    show (" " ++ e ++ ",") ++ joinFrags (fun x => " " ++ x ++ ",") (e2 :: es)
        = " " ++ commaJoin (e :: e2 :: es) ++ ","
    rw [ih e2]
    simp only [commaJoin]
    simp only [sappend_assoc]
    exact congrArg (fun z => " " ++ (e ++ z))
      (lit_fuse "," " " ", " (commaJoin (e2 :: es) ++ ",") (by decide))

theorem sel_prov_eq (fileCols : List String) (prov argsOut file : String)
    (cols : List ColumnDef) (hp : 0 < prov.length) :
    selectAccum fileCols prov cols ++ provFrag prov argsOut file
      = ("SELECT " ++
          commaJoin (selectExprs fileCols prov cols ++ [provExpr prov argsOut file])) ++ "," := by
  unfold selectAccum
  rw [foldl_append_eq_joinFrags, joinFrags_colFrag, provFrag_eq _ _ _ hp]
  have hone : (" " ++ provExpr prov argsOut file ++ ",")
      = joinFrags (fun x => " " ++ x ++ ",") [provExpr prov argsOut file] := by
    simp [joinFrags, sappend_empty]
  rw [sappend_assoc, hone, ← joinFrags_append]
  cases hse : selectExprs fileCols prov cols with
  | nil =>
    simp only [List.nil_append]
    rw [renderSel_eq]
    simp only [sappend_assoc]
    exact lit_fuse "SELECT" " " "SELECT " _ (by decide)
  | cons e es =>
    simp only [List.cons_append]
    rw [renderSel_eq]
    simp only [sappend_assoc]
    exact lit_fuse "SELECT" " " "SELECT " _ (by decide)

theorem branch_eq_struct (fileCols : List String) (prov argsOut file s t : String)
    (cols : List ColumnDef) (hp : 0 < prov.length) :
    branchText fileCols prov argsOut file s t cols
      = branchCoreStruct fileCols prov argsOut file s t cols ++ "\nUNION ALL\n" := by
  unfold branchText branchCoreStruct
  rw [sel_prov_eq fileCols prov argsOut file cols hp, pinch_comma]

theorem joinFrags_unionJoin (bc : String → String) (f0 : String) (fs : List String) :
    joinFrags (fun file => bc file ++ "\nUNION ALL\n") (f0 :: fs)
      = unionJoin ((f0 :: fs).map bc) ++ "\nUNION ALL\n" := by
  induction fs generalizing f0 with
  | nil => simp [joinFrags, unionJoin, sappend_empty]
  | cons f1 fs ih =>
    show (bc f0 ++ "\nUNION ALL\n")
        ++ joinFrags (fun file => bc file ++ "\nUNION ALL\n") (f1 :: fs)
      = unionJoin (List.map bc (f0 :: f1 :: fs)) ++ "\nUNION ALL\n"
    rw [ih f1]
    show _ = (bc f0 ++ "\nUNION ALL\n" ++ unionJoin (List.map bc (f1 :: fs)))
        ++ "\nUNION ALL\n"
    simp [sappend_assoc]

theorem queryHeader_shape (s t : String) :
    queryHeader s t
      = ("CREATE TABLE \"union_output\"." ++ escape_name s ++ "." ++ escape_name t)
          ++ " AS\n" := rfl

theorem pinchUnionAll_header (s t : String) :
    pinchUnionAll (queryHeader s t) = queryHeader s t := by
  unfold pinchUnionAll
  rw [queryHeader_shape, pyEndsWith_AS_false]
  simp

/-- Claim C6 (amended).  Structure of every synthesized statement, for a
non-empty provenance name: the header interpolates the schema and table
through `escape_name`; each branch (see `branchCoreStruct`) selects
escaped column names, `NULL` aliased to escaped column names, and a FROM
clause whose database alias, schema and table are escaped.  The
exceptions to the claim: the provenance alias is the provenance name
written verbatim, not escaped as an identifier, and the provenance
file-name literal is the file name wrapped in bare single quotes, not
escaped as a string literal (`provExpr`). -/
theorem claim_C6_main (cat : String → Catalog) (worklist : List String)
    (prov argsOut s t : String) (cols : List ColumnDef) (hp : 0 < prov.length) :
    unionQuery cat worklist prov argsOut s t cols
      = queryHeader s t ++
        (match worklist.filter (fun f => isCandidate (cat f) s t) with
          | [] => ""
          | f0 :: fs => unionJoin ((f0 :: fs).map
              (fun file => branchCoreStruct (fileTableColumnNames (cat file) s t)
                prov argsOut file s t cols)) ++ "\n") := by
  unfold unionQuery
  rw [foldl_filter_eq_joinFrags (fun f => isCandidate (cat f) s t)
    (fun file => branchText (fileTableColumnNames (cat file) s t) prov argsOut file s t cols)
    worklist (queryHeader s t)]
  have hbr : joinFrags
      (fun file => branchText (fileTableColumnNames (cat file) s t) prov argsOut file s t cols)
      (worklist.filter (fun f => isCandidate (cat f) s t))
    = joinFrags
      (fun file => branchCoreStruct (fileTableColumnNames (cat file) s t) prov argsOut file s t cols
        ++ "\nUNION ALL\n")
      (worklist.filter (fun f => isCandidate (cat f) s t)) := by
    induction worklist.filter (fun f => isCandidate (cat f) s t) with
    | nil => rfl
    | cons f0 fs ih =>
      simp only [joinFrags]
      rw [branch_eq_struct _ _ _ _ _ _ _ hp, ih]
  rw [hbr]
  cases hfl : worklist.filter (fun f => isCandidate (cat f) s t) with
  | nil =>
    simp only [joinFrags]
    rw [sappend_empty, pinchUnionAll_header]
  | cons f0 fs =>
    rw [joinFrags_unionJoin]
    have hnl : ("\nUNION ALL\n" : String) = "\n" ++ "UNION ALL\n" := by decide
    rw [hnl]
    have harr : queryHeader s t ++
        (unionJoin ((f0 :: fs).map
          (fun file => branchCoreStruct (fileTableColumnNames (cat file) s t)
            prov argsOut file s t cols)) ++ ("\n" ++ "UNION ALL\n"))
      = (queryHeader s t ++ (unionJoin ((f0 :: fs).map
          (fun file => branchCoreStruct (fileTableColumnNames (cat file) s t)
            prov argsOut file s t cols)) ++ "\n")) ++ "UNION ALL\n" := by
      simp [sappend_assoc]
    rw [harr]
    unfold pinchUnionAll
    rw [pyEndsWith_append]
    simp only [if_pos rfl]
    rw [pinch_unionall]
    simp [sappend_assoc]

theorem unionQuery_no_candidates (cat : String → Catalog) (worklist : List String)
    (prov argsOut s t : String) (cols : List ColumnDef)
    (h : ∀ f ∈ worklist, isCandidate (cat f) s t = false) :
    unionQuery cat worklist prov argsOut s t cols = queryHeader s t := by
  unfold unionQuery
  have hfl : worklist.filter (fun f => isCandidate (cat f) s t) = [] := by
    rw [List.filter_eq_nil_iff]
    intro f hf
    simp [h f hf]
  rw [foldl_filter_eq_joinFrags, hfl]
  simp only [joinFrags]
  rw [sappend_empty, pinchUnionAll_header]

/-! Lemmas about the Python split used for the temp-file name. -/

theorem splitOnChar_ne_nil (c : Char) (l : List Char) : splitOnChar c l ≠ [] := by
  cases l with
  | nil => simp [splitOnChar]
  | cons x xs =>
    unfold splitOnChar
    by_cases h : x = c
    · rw [if_pos h]; simp
    · rw [if_neg h]
      cases hs : splitOnChar c xs <;> simp

theorem splitOnChar_cons (c x : Char) (xs : List Char) :
    splitOnChar c (x :: xs)
      = if x = c then [] :: splitOnChar c xs
        else match splitOnChar c xs with
          | [] => [[x]]
          | y :: ys => (x :: y) :: ys := rfl

theorem splitOnChar_append (c : Char) (l m : List Char) :
    splitOnChar c (l ++ c :: m) = splitOnChar c l ++ splitOnChar c m := by
  induction l with
  | nil =>
    show splitOnChar c (c :: m) = splitOnChar c [] ++ splitOnChar c m
    rw [splitOnChar_cons, if_pos rfl]
    rfl
  | cons x xs ih =>
    show splitOnChar c (x :: (xs ++ c :: m)) = splitOnChar c (x :: xs) ++ splitOnChar c m
    rw [splitOnChar_cons c x (xs ++ c :: m), splitOnChar_cons c x xs]
    by_cases h : x = c
    · rw [if_pos h, if_pos h, ih]
      rfl
    · rw [if_neg h, if_neg h, ih]
      cases hs : splitOnChar c xs with
      | nil => exact absurd hs (splitOnChar_ne_nil c xs)
      | cons y ys => simp

/-! Pass-2 execution order. -/

theorem runQueries_eq (execOk : String → Bool) (qs : List String) :
    runQueries execOk qs = (qs.takeWhile execOk, (qs.dropWhile execOk).head?) := by
  induction qs with
  | nil => rfl
  | cons q rest ih =>
    unfold runQueries
    by_cases h : execOk q = true
    · rw [if_pos h, ih]
      simp [List.takeWhile_cons, List.dropWhile_cons, h]
    · rw [if_neg h]
      simp only [Bool.not_eq_true] at h
      simp [List.takeWhile_cons, List.dropWhile_cons, h]

/-- Claim C2 (amended).  Pass 2 is not failure-isolated per table: all
statements are executed inside one try block, so the executed statements
are exactly the longest prefix of the synthesized statement list on
which the execution oracle succeeds, and the second component is the
first failing statement (whose exception reaches the outer handler at
line 189, logged as an output-file access problem).  Every statement
after the first failing one — every remaining table of every remaining
schema — is never executed. -/
theorem claim_C2_main (execOk : String → Bool) (cat : String → Catalog)
    (worklist : List String) (prov argsOut : String) (inv : Inventory) :
    pass2 execOk cat worklist prov argsOut inv
      = ((allQueries cat worklist prov argsOut inv).takeWhile execOk,
         ((allQueries cat worklist prov argsOut inv).dropWhile execOk).head?) :=
  runQueries_eq execOk _

/-- Claim C2, counterexample: two tables t1 and t2; executing the first
statement fails.  The run executes nothing, aborts at the first
statement, and the distinct second statement (table t2) is never
executed — contradicting the claim that only the failing table is
skipped and execution continues with every remaining table. -/
theorem claim_C2_counterexample :
    exQsC2.length = 2
    ∧ exQsC2.headD "" ≠ exQsC2.getLastD ""
    ∧ pass2 (fun q => q != exQsC2.headD "") exCatC2 ["a.hyper"] "source_file"
        "union.hyper" exInvC2
      = ([], some (exQsC2.headD "")) := by
  refine ⟨by decide, by decide, by decide⟩

/-- Claim C3 (amended).  For a unified table with zero matching candidate
files a statement is still produced — the bare `CREATE TABLE ... AS`
header with no SELECT branch — and it is executed unconditionally like
any other statement (the absence of the table from each file is only
logged). -/
theorem claim_C3_main (cat : String → Catalog) (worklist : List String)
    (prov argsOut s t : String) (cols : List ColumnDef)
    (h : ∀ f ∈ worklist, isCandidate (cat f) s t = false) :
    unionQuery cat worklist prov argsOut s t cols = queryHeader s t
    ∧ pass2 (fun _ => true) cat worklist prov argsOut [(s, [(t, cols)])]
        = ([queryHeader s t], none) := by
  have h1 := unionQuery_no_candidates cat worklist prov argsOut s t cols h
  constructor
  · exact h1
  · have h2 : allQueries cat worklist prov argsOut [(s, [(t, cols)])]
        = [unionQuery cat worklist prov argsOut s t cols] := by
      simp [allQueries]
    unfold pass2
    rw [h2, h1]
    simp [runQueries]

/-- Claim C3, counterexample: a table recorded in the inventory that no
candidate file contains.  A statement is produced for it — the header
with no SELECT — and it is executed, contradicting the claim that no
statement is produced or executed. -/
theorem claim_C3_counterexample :
    unionQuery (fun _ => []) ["a.hyper"] "source_file" "union.hyper" "s" "t"
        [⟨"id", "int", true, none⟩]
      = "CREATE TABLE \"union_output\".\"s\".\"t\" AS\n"
    ∧ pass2 (fun _ => true) (fun _ => []) ["a.hyper"] "source_file" "union.hyper"
        [("s", [("t", [⟨"id", "int", true, none⟩])])]
      = (["CREATE TABLE \"union_output\".\"s\".\"t\" AS\n"], none) := by
  refine ⟨by decide, by decide⟩

/-- Claim C3, witness for the amended theorem at a concrete input. -/
theorem claim_C3_witness :
    unionQuery (fun _ => []) ["b.hyper"] "source_file" "union.hyper" "s2" "t2"
        [⟨"x", "int", true, none⟩]
      = queryHeader "s2" "t2"
    ∧ pass2 (fun _ => true) (fun _ => []) ["b.hyper"] "source_file" "union.hyper"
        [("s2", [("t2", [⟨"x", "int", true, none⟩])])]
      = ([queryHeader "s2" "t2"], none) :=
  claim_C3_main (fun _ => []) ["b.hyper"] "source_file" "union.hyper" "s2" "t2"
    [⟨"x", "int", true, none⟩] (by decide)

/-- Claim C4 (amended).  For a unified column whose escaped name differs
from the escaped provenance name, the branch fragment selects the column
verbatim (escaped) when the file has a column of that exact name, and
otherwise a bare, untyped `NULL` aliased to the escaped column name; the
fragment depends only on the column name, never on its declared type,
nullability or collation — the `NULL` carries no type. -/
theorem claim_C4_main (fileCols : List String) (prov : String) (c : ColumnDef)
    (hne : escape_name c.name ≠ escape_name prov) :
    (colFrag fileCols prov c
      = (if fileCols.contains c.name then " " ++ escape_name c.name ++ ","
         else " NULL as " ++ escape_name c.name ++ ","))
    ∧ (∀ (ty : String) (nb : Bool) (co : Option String),
        colFrag fileCols prov ⟨c.name, ty, nb, co⟩ = colFrag fileCols prov c) := by
  have hcol : (escape_name c.name == escape_name prov) = false := by
    simp [hne]
  constructor
  · by_cases hmem : fileCols.contains c.name = true
    · rw [if_pos hmem]
      exact colFrag_mem hcol hmem
    · have hmf : fileCols.contains c.name = false := by simpa using hmem
      rw [if_neg (by simp only [hmf]; exact Bool.false_ne_true)]
      exact colFrag_null hcol hmf
  · intro ty nb co
    by_cases hmem : fileCols.contains c.name = true
    · rw [colFrag_mem (c := ⟨c.name, ty, nb, co⟩) hcol hmem, colFrag_mem hcol hmem]
    · have hmf : fileCols.contains c.name = false := by simpa using hmem
      rw [colFrag_null (c := ⟨c.name, ty, nb, co⟩) hcol hmf, colFrag_null hcol hmf]

/-- Claim C4, counterexample: the padded column `name` is declared text
in one inventory and int (and not-null) in the other, yet the
synthesized statements are byte-identical — the `NULL` standing in for
the missing column carries no type, so it is not a typed NULL. -/
theorem claim_C4_counterexample :
    ("text" ≠ "int")
    ∧ unionQuery exCatC4 ["a.hyper"] "source_file" "union.hyper" "s" "t"
        [⟨"id", "int", true, none⟩, ⟨"name", "text", true, none⟩]
      = unionQuery exCatC4 ["a.hyper"] "source_file" "union.hyper" "s" "t"
        [⟨"id", "int", true, none⟩, ⟨"name", "int", false, none⟩] := by
  refine ⟨by decide, by decide⟩

/-- Claim C4, witness for the amended theorem at a concrete input. -/
theorem claim_C4_witness :
    colFrag ["id"] "source_file" ⟨"name", "text", true, none⟩
      = " NULL as " ++ escape_name "name" ++ ","
    ∧ colFrag ["id"] "source_file" ⟨"name", "int", false, none⟩
      = colFrag ["id"] "source_file" ⟨"name", "text", true, none⟩ := by
  constructor
  · have h := (claim_C4_main ["id"] "source_file" ⟨"name", "text", true, none⟩
      (by decide)).1
    rw [h]
    decide
  · exact (claim_C4_main ["id"] "source_file" ⟨"name", "text", true, none⟩
      (by decide)).2 "int" false none

/-- Claim C5.  Provenance literal versus passthrough: with a non-empty
provenance name, the branch of a genuine source file (`file` differs
from the output-file argument) ends its SELECT list with the
single-quoted file name aliased to the provenance name, while the branch
of the re-absorbed previous output (`file` equals the output-file
argument, preserve mode) instead ends with the escaped existing
provenance column aliased to the provenance name, passed through
unchanged. -/
theorem claim_C5_main (fileCols : List String) (prov argsOut file s t : String)
    (cols : List ColumnDef) (hp : 0 < prov.length) :
    (file ≠ argsOut →
      branchText fileCols prov argsOut file s t cols
        = "SELECT " ++ commaJoin (selectExprs fileCols prov cols
            ++ [sq ++ file ++ sq ++ " as " ++ prov])
          ++ " FROM " ++ escape_name (fileDatabaseName file) ++ "." ++ escape_name s
          ++ "." ++ escape_name t ++ "\nUNION ALL\n")
    ∧ (file = argsOut →
      branchText fileCols prov argsOut file s t cols
        = "SELECT " ++ commaJoin (selectExprs fileCols prov cols
            ++ [escape_name prov ++ " as " ++ prov])
          ++ " FROM " ++ escape_name (fileDatabaseName file) ++ "." ++ escape_name s
          ++ "." ++ escape_name t ++ "\nUNION ALL\n") := by
  have hb := branch_eq_struct fileCols prov argsOut file s t cols hp
  constructor
  · intro hne
    rw [hb]
    unfold branchCoreStruct provExpr
    rw [if_pos (by simp [hne] : (file != argsOut) = true)]
  · intro heq
    rw [hb]
    unfold branchCoreStruct provExpr
    rw [if_neg (by simp [heq] : ¬(file != argsOut) = true)]

/-- Claim C5, witness: one branch for a genuine source file selecting
the literal, one for the previous output passing its provenance column
through. -/
theorem claim_C5_witness :
    (branchText ["id"] "source_file" "union.hyper" "a.hyper" "s" "t"
        [⟨"id", "int", true, none⟩]
      = "SELECT " ++ commaJoin (selectExprs ["id"] "source_file" [⟨"id", "int", true, none⟩]
          ++ [sq ++ "a.hyper" ++ sq ++ " as " ++ "source_file"])
        ++ " FROM " ++ escape_name (fileDatabaseName "a.hyper") ++ "." ++ escape_name "s"
        ++ "." ++ escape_name "t" ++ "\nUNION ALL\n")
    ∧ (branchText ["id"] "source_file" "union.hyper" "union.hyper" "s" "t"
        [⟨"id", "int", true, none⟩]
      = "SELECT " ++ commaJoin (selectExprs ["id"] "source_file" [⟨"id", "int", true, none⟩]
          ++ [escape_name "source_file" ++ " as " ++ "source_file"])
        ++ " FROM " ++ escape_name (fileDatabaseName "union.hyper") ++ "." ++ escape_name "s"
        ++ "." ++ escape_name "t" ++ "\nUNION ALL\n") :=
  ⟨(claim_C5_main ["id"] "source_file" "union.hyper" "a.hyper" "s" "t"
      [⟨"id", "int", true, none⟩] (by decide)).1 (by decide),
   (claim_C5_main ["id"] "source_file" "union.hyper" "union.hyper" "s" "t"
      [⟨"id", "int", true, none⟩] (by decide)).2 rfl⟩

/-- Claim C6, counterexample: with provenance name `source file` (which
identifier-escaping would quote) and a file name containing a single
quote, the provenance fragment aliases the column to the provenance name
written verbatim, not to the escaped identifier, and embeds the file
name between bare single quotes, not as an escaped string literal. -/
theorem claim_C6_counterexample :
    provFrag "source file" "union.hyper" ("o" ++ sq ++ "brien.hyper")
      = " " ++ sq ++ ("o" ++ sq ++ "brien.hyper") ++ sq ++ " as " ++ "source file" ++ ","
    ∧ provFrag "source file" "union.hyper" ("o" ++ sq ++ "brien.hyper")
      ≠ " " ++ escape_string_literal ("o" ++ sq ++ "brien.hyper") ++ " as "
          ++ escape_name "source file" ++ ","
    ∧ escape_name "source file" ≠ "source file" := by
  refine ⟨by decide, by decide, by decide⟩

/-- Claim C6, witness for the amended structural theorem at a concrete
input. -/
theorem claim_C6_witness :
    unionQuery exCatC6 ["a.hyper"] "source_file" "union.hyper" "s" "t"
        [⟨"id", "int", true, none⟩]
      = queryHeader "s" "t"
        ++ (unionJoin [branchCoreStruct (fileTableColumnNames (exCatC6 "a.hyper") "s" "t")
              "source_file" "union.hyper" "a.hyper" "s" "t" [⟨"id", "int", true, none⟩]]
            ++ "\n") := by
  have h := claim_C6_main exCatC6 ["a.hyper"] "source_file" "union.hyper" "s" "t"
    [⟨"id", "int", true, none⟩] (by decide)
  rw [h]
  decide

/-! Congruence in the catalog oracle, for the determinism claim. -/

theorem foldl_merge_congr (cat cat' : String → Catalog) :
    ∀ (w : List String), (∀ f ∈ w, cat f = cat' f) →
    ∀ acc : Inventory × List Conflict,
      w.foldl (fun acc f =>
          ((mergeFile acc.1 (cat f) f).1, acc.2 ++ (mergeFile acc.1 (cat f) f).2)) acc
        = w.foldl (fun acc f =>
          ((mergeFile acc.1 (cat' f) f).1, acc.2 ++ (mergeFile acc.1 (cat' f) f).2)) acc := by
  intro w
  induction w with
  | nil => intro h acc; rfl
  | cons f fs ih =>
    intro h acc
    simp only [List.foldl_cons]
    rw [h f (List.mem_cons_self f fs)]
    exact ih (fun g hg => h g (List.mem_cons_of_mem f hg)) _

theorem buildInventory_congr (w : List String) (cat cat' : String → Catalog)
    (h : ∀ f ∈ w, cat f = cat' f) :
    buildInventory w cat = buildInventory w cat' :=
  foldl_merge_congr cat cat' w h ([], [])

theorem foldl_branch_congr (cat cat' : String → Catalog) (prov argsOut s t : String)
    (cols : List ColumnDef) :
    ∀ (w : List String), (∀ f ∈ w, cat f = cat' f) →
    ∀ a : String,
      w.foldl (fun q file => if isCandidate (cat file) s t then
          q ++ branchText (fileTableColumnNames (cat file) s t) prov argsOut file s t cols
        else q) a
        = w.foldl (fun q file => if isCandidate (cat' file) s t then
          q ++ branchText (fileTableColumnNames (cat' file) s t) prov argsOut file s t cols
        else q) a := by
  intro w
  induction w with
  | nil => intro h a; rfl
  | cons f fs ih =>
    intro h a
    simp only [List.foldl_cons]
    rw [h f (List.mem_cons_self f fs)]
    exact ih (fun g hg => h g (List.mem_cons_of_mem f hg)) _

theorem unionQuery_congr (cat cat' : String → Catalog) (w : List String)
    (prov argsOut s t : String) (cols : List ColumnDef)
    (h : ∀ f ∈ w, cat f = cat' f) :
    unionQuery cat w prov argsOut s t cols = unionQuery cat' w prov argsOut s t cols := by
  unfold unionQuery
  rw [foldl_branch_congr cat cat' prov argsOut s t cols w h]

theorem allQueries_congr (cat cat' : String → Catalog) (w : List String)
    (prov argsOut : String) (inv : Inventory) (h : ∀ f ∈ w, cat f = cat' f) :
    allQueries cat w prov argsOut inv = allQueries cat' w prov argsOut inv := by
  unfold allQueries
  refine congrArg List.flatten ?_
  refine List.map_congr_left ?_
  intro p hp
  refine List.map_congr_left ?_
  intro q hq
  exact unionQuery_congr cat cat' w prov argsOut p.1 q.1 q.2 h

/-- Claim C7.  Determinism: the inventory (with its conflict list) and
the synthesized SQL of every table are a pure function of the ordered
worklist and of the catalogs of the worklist files — two runs over
catalog oracles that agree on every worklist file produce identical
inventory contents and byte-identical SQL text. -/
theorem claim_C7_main (preserve : Bool) (globbed : List String)
    (argsOut prov : String) (cat cat' : String → Catalog)
    (h : ∀ f ∈ (worklistOf preserve globbed argsOut).1, cat f = cat' f) :
    runPipeline preserve globbed argsOut prov cat
      = runPipeline preserve globbed argsOut prov cat' := by
  unfold runPipeline
  rw [buildInventory_congr _ cat cat' h,
    allQueries_congr cat cat' _ prov argsOut _ h]

/-- Claim C7, witness: two catalog oracles that agree on the two
worklist files but differ on a file outside the worklist yield the same
inventory and the same SQL. -/
theorem claim_C7_witness :
    runPipeline true ["a.hyper", "union.hyper"] "union.hyper" "source_file"
        (fun f =>
          if f == "a.hyper" then [("s", [("t", [⟨"id", "int", true, none⟩])])]
          else if f == "union.hyper" then [("s", [("t", [⟨"id", "int", true, none⟩])])]
          else [])
      = runPipeline true ["a.hyper", "union.hyper"] "union.hyper" "source_file"
        (fun f =>
          if f == "a.hyper" then [("s", [("t", [⟨"id", "int", true, none⟩])])]
          else if f == "union.hyper" then [("s", [("t", [⟨"id", "int", true, none⟩])])]
          else [("zzz", [])]) :=
  claim_C7_main true ["a.hyper", "union.hyper"] "union.hyper" "source_file" _ _
    (by decide)

/-- Claim C8.  Provenance-name collision: a unified column whose escaped
name equals the escaped provenance name contributes nothing to the
per-column SELECT loop of any branch; a branch is unaffected by whether
the file even has a column of that name; and for a genuine source file
with a non-empty provenance name, the provenance position is the
single-quoted file-name literal, so the input column is never read. -/
theorem claim_C8_main :
    (∀ (fileCols : List String) (prov : String) (c : ColumnDef),
      escape_name c.name = escape_name prov → colFrag fileCols prov c = "")
    ∧ (∀ (fileCols : List String) (prov argsOut file s t n : String)
        (cols : List ColumnDef),
      escape_name n = escape_name prov →
      branchText fileCols prov argsOut file s t cols
        = branchText (fileCols.filter (fun x => x != n)) prov argsOut file s t cols)
    ∧ (∀ (prov argsOut file : String), 0 < prov.length → file ≠ argsOut →
      provFrag prov argsOut file = " " ++ sq ++ file ++ sq ++ " as " ++ prov ++ ",") := by
  refine ⟨?_, ?_, ?_⟩
  · intro fileCols prov c h
    exact colFrag_skip (by simp [h])
  · intro fileCols prov argsOut file s t n cols h
    have hcf : ∀ c : ColumnDef,
        colFrag fileCols prov c = colFrag (fileCols.filter (fun x => x != n)) prov c := by
      intro c
      by_cases hcn : c.name = n
      · have hcol : (escape_name c.name == escape_name prov) = true := by
          simp [hcn, h]
        rw [colFrag_skip hcol, colFrag_skip hcol]
      · have hmm : c.name ∈ fileCols.filter (fun x => x != n) ↔ c.name ∈ fileCols := by
          simp [List.mem_filter, hcn]
        have hm : (fileCols.filter (fun x => x != n)).contains c.name
            = fileCols.contains c.name := by
          simp [hmm]
        unfold colFrag
        rw [hm]
    unfold branchText selectAccum
    have hfold : ∀ (l : List ColumnDef) (a : String),
        l.foldl (fun q c => q ++ colFrag fileCols prov c) a
          = l.foldl (fun q c => q ++ colFrag (fileCols.filter (fun x => x != n)) prov c) a := by
      intro l
      induction l with
      | nil => intro a; rfl
      | cons c cs ih =>
        intro a
        simp only [List.foldl_cons]
        rw [hcf c]
        exact ih _
    rw [hfold]
  · intro prov argsOut file hp hne
    unfold provFrag
    rw [if_pos hp, if_pos (by simp [hne] : (file != argsOut) = true)]

/-- Claim C8, witness: a column literally named like the provenance
column contributes nothing, the branch ignores whether the file has it,
and the provenance slot carries the literal. -/
theorem claim_C8_witness :
    colFrag ["source_file", "id"] "source_file" ⟨"source_file", "text", true, none⟩ = ""
    ∧ branchText ["source_file", "id"] "source_file" "union.hyper" "a.hyper" "s" "t"
        [⟨"id", "int", true, none⟩, ⟨"source_file", "text", true, none⟩]
      = branchText (["source_file", "id"].filter (fun x => x != "source_file"))
          "source_file" "union.hyper" "a.hyper" "s" "t"
          [⟨"id", "int", true, none⟩, ⟨"source_file", "text", true, none⟩]
    ∧ provFrag "source_file" "union.hyper" "a.hyper"
      = " " ++ sq ++ "a.hyper" ++ sq ++ " as " ++ "source_file" ++ "," :=
  ⟨claim_C8_main.1 ["source_file", "id"] "source_file"
      ⟨"source_file", "text", true, none⟩ rfl,
   claim_C8_main.2.1 ["source_file", "id"] "source_file" "union.hyper" "a.hyper"
      "s" "t" "source_file" [⟨"id", "int", true, none⟩, ⟨"source_file", "text", true, none⟩]
      rfl,
   claim_C8_main.2.2 "source_file" "union.hyper" "a.hyper" (by decide) (by decide)⟩

/-- Claim C9 (amended).  The preserve-mode temp name is the last
dot-separated component of the output name followed by `_temp.hyper`, so
it is `hyper_temp.hyper` for every output named `*.hyper` regardless of
its stem; the preserve-mode worklist never contains the temp name and
contains the existing output file provided the output file is not itself
named like the temp name; without preserve mode the worklist never
contains the output file. -/
theorem claim_C9_main :
    (∀ stem : String, tempOutputName (stem ++ ".hyper") = "hyper_temp.hyper")
    ∧ (∀ (globbed : List String) (argsOut : String),
        tempOutputName argsOut ∉ (worklistOf true globbed argsOut).1)
    ∧ (∀ (globbed : List String) (argsOut : String),
        argsOut ∈ globbed → argsOut ≠ tempOutputName argsOut →
        argsOut ∈ (worklistOf true globbed argsOut).1)
    ∧ (∀ (globbed : List String) (argsOut : String),
        argsOut ∉ (worklistOf false globbed argsOut).1) := by
  refine ⟨?_, ?_, ?_, ?_⟩
  · intro stem
    unfold tempOutputName lastDotComponent pySplitDot
    have hd : (stem ++ ".hyper").data = stem.data ++ '.' :: ['h', 'y', 'p', 'e', 'r'] := by
      rw [String.data_append]
    rw [hd, splitOnChar_append, List.map_append]
    have hsp : (splitOnChar '.' ['h', 'y', 'p', 'e', 'r']).map
        (fun l => (⟨l⟩ : String)) = ["hyper"] := by decide
    rw [hsp, List.getLastD_concat]
    decide
  · intro globbed argsOut
    simp [worklistOf, List.mem_filter]
  · intro globbed argsOut hmem hne
    simp [worklistOf, List.mem_filter, hmem, hne]
  · intro globbed argsOut
    simp [worklistOf, List.mem_filter]

/-- Claim C9, counterexample: an output file named `hyper_temp.hyper` is
its own temp name, so in preserve mode the worklist excludes the
existing output file, contradicting the claim that the worklist includes
it. -/
theorem claim_C9_counterexample :
    tempOutputName "hyper_temp.hyper" = "hyper_temp.hyper"
    ∧ "hyper_temp.hyper" ∈ (["a.hyper", "hyper_temp.hyper"] : List String)
    ∧ "hyper_temp.hyper" ∉ (worklistOf true ["a.hyper", "hyper_temp.hyper"]
        "hyper_temp.hyper").1 := by
  refine ⟨by decide, by decide, by decide⟩

/-- Claim C9, witness for the amended theorem at concrete inputs. -/
theorem claim_C9_witness :
    tempOutputName ("union" ++ ".hyper") = "hyper_temp.hyper"
    ∧ "union.hyper" ∈ (worklistOf true ["a.hyper", "union.hyper"] "union.hyper").1 :=
  ⟨claim_C9_main.1 "union",
   claim_C9_main.2.2.1 ["a.hyper", "union.hyper"] "union.hyper" (by decide) (by decide)⟩

/-- Claim C10.  Preserve-mode finalization with a distinct temp name
removes the original output path without checking that it exists: when
no file exists at the original output path, `os.remove` raises, the
rename never executes, the file system is left unchanged (the result
stays under the temp name), and the exception is caught by the outer
handler and logged as an output-file access problem rather than
propagated. -/
theorem claim_C10_main (argsOut : String) (fs : List String)
    (hne : tempOutputName argsOut ≠ argsOut) (hout : argsOut ∉ fs) :
    finalize (tempOutputName argsOut) argsOut fs
      = FinalizeResult.outputAccessErrorLogged fs := by
  unfold finalize
  rw [if_pos (by simp [hne] : (tempOutputName argsOut != argsOut) = true)]
  unfold osRemove
  rw [if_neg hout]

/-- Claim C10, witness: a first preserve-mode run — the temp file exists,
the output file does not; finalization logs the output-access error and
leaves the file system unchanged. -/
theorem claim_C10_witness :
    finalize (tempOutputName "union.hyper") "union.hyper" ["hyper_temp.hyper", "a.hyper"]
      = FinalizeResult.outputAccessErrorLogged ["hyper_temp.hyper", "a.hyper"] :=
  claim_C10_main "union.hyper" ["hyper_temp.hyper", "a.hyper"] (by decide) (by decide)

end HyperUnion

